import Mathlib

/-!
Verification of the mbed-events event queue library against its
natural-language specification.

The repository splits into two layers:

* the C++ convenience layer (`EventQueue.h`, `EventQueue.cpp`,
  `EventLoop.{h,cpp}`, `events-c/events_tick.cpp`,
  `events-c/events_sema.cpp`), which is embedded here directly from the
  source files; and
* the C core `equeue` (`equeue_create`, `equeue_alloc`, `equeue_post`,
  `equeue_dispatch`, `event_cancel`, ...), whose implementation file is not
  part of the source tree (only its declarations and callers are).  Those
  operations are modelled from the specification, section by section; each
  such definition carries a doc comment starting with
  `Modelled from the spec:`.

Times are modelled as unwrapped natural milliseconds.  The specification
(§4.3) mandates wrap-aware comparisons whose validity window is half the
32-bit counter range; within that window the wrap-aware order agrees with
the order on the unwrapped clock, which is what the dispatch model uses.
The 32-bit wrapping behaviour of the clock itself is verified separately
on the `GlobalTicker` model (claim C6).
-/

namespace MbedEvents

/-- Ceiling of the base-2 logarithm by repeated halving (`fuel` bounds the
recursion; `n` itself is always enough fuel). -/
def ceilLog2Fuel : Nat → Nat → Nat
  | 0, _ => 0
  | fuel + 1, n => if n ≤ 1 then 0 else ceilLog2Fuel fuel ((n + 1) / 2) + 1

/-- Ceiling of the base-2 logarithm: least `k` with `n ≤ 2 ^ k`, for `n ≥ 1`. -/
def ceilLog2 (n : Nat) : Nat :=
  ceilLog2Fuel n n

/-- Modelled from the spec: the slab allocator state (§4.1, §3 "Arena and
free lists"; the implementing file `equeue.c` is not in the source tree).
The arena is a contiguous buffer of `arenaSize` bytes; `bump` is the carve
pointer; `freelists` holds one LIFO list of chunk offsets per size class
`minClass .. maxClass`. -/
structure Slab where
  headerSize : Nat
  minClass : Nat
  maxClass : Nat
  arenaSize : Nat
  bump : Nat
  freelists : List (List Nat)
  deriving DecidableEq, Repr

namespace Slab

/-- Modelled from the spec: size-class selection (§4.1): `class =
ceil_log2(header_size + size)`, clamped from below to the configured range;
classes above the range fail. -/
def classOf (s : Slab) (size : Nat) : Nat :=
  max (ceilLog2 (s.headerSize + size)) s.minClass

/-- Replace the free list of class `c` (index `c - minClass`). -/
def setFree (s : Slab) (c : Nat) (l : List Nat) : Slab :=
  { s with freelists := s.freelists.set (c - s.minClass) l }

/-- The free list of class `c`. -/
def freeOf (s : Slab) (c : Nat) : List Nat :=
  (s.freelists.get? (c - s.minClass)).getD []

/-- Modelled from the spec: `alloc(size)` (§4.1).  Picks the size class;
fails when out of range; otherwise pops the class free list, or carves a
fresh chunk at `bump` when the arena still has room; fails when the arena
is exhausted.  Returns the new state together with the chunk offset and
its class. -/
def alloc (s : Slab) (size : Nat) : Option (Slab × Nat × Nat) :=
  let c := s.classOf size
  if c > s.maxClass then
    none
  else
    match s.freeOf c with
    | off :: rest => some (s.setFree c rest, off, c)
    | [] =>
      if s.bump + 2 ^ c ≤ s.arenaSize then
        some ({ s with bump := s.bump + 2 ^ c }, s.bump, c)
      else
        none

/-- Modelled from the spec: `dealloc` (§4.1): freed chunks return to the
per-class LIFO free list; chunks are never split nor coalesced. -/
def dealloc (s : Slab) (off : Nat) (c : Nat) : Slab :=
  s.setFree c (off :: s.freeOf c)

end Slab

/-- An event record (spec §3 "Event record"): slot location (`off`, `cls`),
the generation the id was minted with, the absolute deadline in ms, the
optional period (`none` = one-shot), the action performed when the target
is invoked on the payload, and whether a destructor was installed. -/
structure EEvent (α : Type) where
  off : Nat
  cls : Nat
  gen : Nat
  deadline : Nat
  period : Option Nat
  run : α
  hasDtor : Bool
  deriving DecidableEq, Repr

/-- An allocated-but-not-yet-posted event: the slot handed out by
`equeue_alloc` plus the header fields the setters
(`equeue_event_delay` / `equeue_event_period` / `equeue_event_dtor`)
mutate before `equeue_post` reads them.  `delay` defaults to 0, `period`
to "none", `hasDtor` to false, matching the zero-initialised header the
allocator returns (spec §4.1, §4.4.1). -/
structure PreEvent (α : Type) where
  off : Nat
  cls : Nat
  payload : α
  delay : Nat := 0
  period : Option Nat := none
  hasDtor : Bool := false
  deriving DecidableEq, Repr

/-- Generation map: association list from chunk offset to the slot's
current generation; the most recent binding for an offset wins. -/
def lookupGen : Nat → List (Nat × Nat) → Option Nat
  | _, [] => none
  | k, p :: ps => if p.1 = k then some p.2 else lookupGen k ps

/-- Modelled from the spec: the queue state (§3 "Queue"): the arena
allocator, per-slot generations, the ordered pending list, the dispatching
list, the break flag, and the current tick (the model keeps the clock value
last read by the queue in the state). `indexBits`/`genBits` fix the id
encoding (§4.2). -/
structure Equeue (α : Type) where
  slab : Slab
  gens : List (Nat × Nat)
  pending : List (EEvent α)
  dispatching : List (EEvent α)
  breakFlag : Bool
  now : Nat
  indexBits : Nat
  genBits : Nat
  deriving DecidableEq, Repr

namespace Equeue

/-- Modelled from the spec: id encoding (§4.2): low `indexBits` bits hold
the slot index (chunk offset), the remaining bits the generation. -/
def encodeId (q : Equeue α) (off gen : Nat) : Nat :=
  gen * 2 ^ q.indexBits + off

/-- Modelled from the spec: generation bump (§4.2): incremented modulo its
width, skipping zero so that id 0 stays reserved for "invalid". -/
def genInc (genBits g : Nat) : Nat :=
  if g + 1 < 2 ^ genBits then g + 1 else 1

end Equeue

/-- Modelled from the spec: `equeue_alloc` (§4.1, §4.4.1): IRQ-safe slab
allocation; on success the slot's generation entry exists (a freshly
carved chunk starts at generation 1).  Returns `none` when no chunk is
available. -/
def equeue_alloc (q : Equeue α) (size : Nat) : Option (Equeue α × Nat × Nat) :=
  match q.slab.alloc size with
  | none => none
  | some (s, off, c) =>
    let gens :=
      match lookupGen off q.gens with
      | none => (off, 1) :: q.gens
      | some _ => q.gens
    some ({ q with slab := s, gens := gens }, off, c)

/-- `equeue_event_delay` (header setter surface, spec §4.6): records the
delay in the allocated event's header. -/
def equeue_event_delay (e : PreEvent α) (ms : Nat) : PreEvent α :=
  { e with delay := ms }

/-- `equeue_event_period` (header setter surface, spec §4.6): records the
period in the allocated event's header. -/
def equeue_event_period (e : PreEvent α) (ms : Nat) : PreEvent α :=
  { e with period := some ms }

/-- `equeue_event_dtor` (header setter surface, spec §4.6): installs the
destructor in the allocated event's header. -/
def equeue_event_dtor (e : PreEvent α) : PreEvent α :=
  { e with hasDtor := true }

/-- Modelled from the spec: ordered insertion (§4.4.1): the event goes to
the first position whose successor has a strictly later deadline, i.e.
FIFO among equal deadlines. -/
def insertOrdered (e : EEvent α) : List (EEvent α) → List (EEvent α)
  | [] => [e]
  | x :: xs =>
    if x.deadline ≤ e.deadline then x :: insertOrdered e xs
    else e :: x :: xs

/-- Modelled from the spec: `equeue_post` (§4.4.1): computes the deadline
as `now + delay`, inserts the event into the ordered pending list, and
returns the slot's id (generation and index, per §4.2).  The semaphore
release and background-hook call have no observable effect on the state
modelled here. -/
def equeue_post (q : Equeue α) (p : PreEvent α) : Equeue α × Nat :=
  let gen := (lookupGen p.off q.gens).getD 1
  let e : EEvent α :=
    { off := p.off, cls := p.cls, gen := gen, deadline := q.now + p.delay,
      period := p.period, run := p.payload, hasDtor := p.hasDtor }
  ({ q with pending := insertOrdered e q.pending }, q.encodeId p.off gen)

/-- Modelled from the spec: `cancel(id)` (§4.5).  Zero id: no-op.  Decode
the slot from the index bits; a generation mismatch is a silent no-op.  A
pending slot is unlinked, its generation bumped and the chunk freed; a
dispatching slot is marked zombie by bumping the generation in place;
cancel never blocks and reports nothing. -/
def event_cancel (q : Equeue α) (id : Nat) : Equeue α :=
  if id = 0 then q
  else
    let off := id % 2 ^ q.indexBits
    let gen := id / 2 ^ q.indexBits
    match lookupGen off q.gens with
    | none => q
    | some g =>
      if g ≠ gen then q
      else
        match q.pending.find? (fun e => e.off == off) with
        | some e =>
          { q with
            pending := q.pending.eraseP (fun e => e.off == off),
            gens := (off, Equeue.genInc q.genBits g) :: q.gens,
            slab := q.slab.dealloc e.off e.cls }
        | none =>
          if q.dispatching.any (fun e => e.off == off) then
            { q with gens := (off, Equeue.genInc q.genBits g) :: q.gens }
          else q

/-- Modelled from the spec: `break()` (§4.4.3): sets the break flag (the
semaphore release has no further effect on the state modelled here). -/
def equeue_break (q : Equeue α) : Equeue α :=
  { q with breakFlag := true }

/-- An event is ready when its deadline is at or before the current tick. -/
def readyAt (now : Nat) (e : EEvent α) : Bool :=
  e.deadline ≤ now

/-- Modelled from the spec: dispatch step 2 (§4.4.2): after an event's
target has run, a periodic event whose generation is unchanged advances
its deadline by the period and is reinserted; otherwise the destructor
runs, the generation is bumped and the chunk returns to its free list. -/
def finishEvent (q : Equeue α) (e : EEvent α) : Equeue α :=
  match e.period with
  | some p =>
    if lookupGen e.off q.gens = some e.gen then
      { q with pending := insertOrdered { e with deadline := e.deadline + p } q.pending }
    else
      { q with
        gens := (e.off, Equeue.genInc q.genBits ((lookupGen e.off q.gens).getD e.gen)) :: q.gens,
        slab := q.slab.dealloc e.off e.cls }
  | none =>
    { q with
      gens := (e.off, Equeue.genInc q.genBits ((lookupGen e.off q.gens).getD e.gen)) :: q.gens,
      slab := q.slab.dealloc e.off e.cls }

/-- Modelled from the spec: dispatch steps 1-2 (§4.4.2): splice the ready
prefix of the pending list into the dispatching list, invoke each target
in order and finish each event; the dispatching list is empty again once
the batch is done.  Returns the trace of executed actions. -/
def dispatchBatch (q : Equeue α) : List α × Equeue α :=
  let ready := q.pending.takeWhile (readyAt q.now)
  let rest := q.pending.dropWhile (readyAt q.now)
  let q1 := { q with pending := rest, dispatching := ready }
  let q2 := ready.foldl finishEvent q1
  (ready.map (fun e => e.run), { q2 with dispatching := [] })

/-- Modelled from the spec: the dispatch loop (§4.4.2), steps 1-6, for a
single-threaded run (no concurrent producer, so every semaphore wait times
out).  `clk` is the platform millisecond clock, indexed by read count: the
tick after a wait of `w` ms is at least `now + w` and at least the fresh
clock reading.  `timeout` is the absolute end time (`none` dispatches
forever).  `fuel` bounds the number of loop iterations the model unrolls;
a `none` result means the loop was still running. -/
def dispatchLoop (clk : Nat → Nat) (timeout : Option Nat) :
    Nat → Nat → Equeue α → List α × Option (Equeue α)
  | 0, _, _ => ([], none)
  | fuel + 1, i, q =>
    let tr := (dispatchBatch q).1
    let q1 := (dispatchBatch q).2
    if q1.breakFlag then
      (tr, some { q1 with breakFlag := false })
    else
      match timeout, q1.pending.head? with
      | none, none => (tr, none)
      | none, some e =>
        let q2 := { q1 with now := max (clk i) (q1.now + (e.deadline - q1.now)) }
        let r := dispatchLoop clk none fuel (i + 1) q2
        (tr ++ r.1, r.2)
      | some T, headOpt =>
        let w :=
          match headOpt with
          | none => T - q1.now
          | some e => min (e.deadline - q1.now) (T - q1.now)
        let q2 := { q1 with now := max (clk i) (q1.now + w) }
        if T ≤ q2.now then (tr, some q2)
        else
          let r := dispatchLoop clk (some T) fuel (i + 1) q2
          (tr ++ r.1, r.2)

/-- Modelled from the spec: `equeue_dispatch(q, ms)` (§4.4.2): a negative
`ms` dispatches forever, otherwise the deadline is `now + ms`. -/
def equeue_dispatch (clk : Nat → Nat) (q : Equeue α) (ms : Int) (fuel : Nat) :
    List α × Option (Equeue α) :=
  dispatchLoop clk (if ms < 0 then none else some (q.now + ms.toNat)) fuel 0 q

/-- `EventQueue::dispatch(int ms)` (src/EventQueue.cpp lines 23-25, header
contract src/EventQueue.h lines 66-80): delegates to `equeue_dispatch`. -/
def EventQueue.dispatch (clk : Nat → Nat) (q : Equeue α) (ms : Int)
    (fuel : Nat) : List α × Option (Equeue α) :=
  equeue_dispatch clk q ms fuel

namespace EventQueue

/-!
The templated convenience layer, embedded from `src/EventQueue.h`.  A
callable payload of C++ type `F` is a Lean value `f : F`; the trampoline
`local::call` (which invokes `operator()` on the placement-constructed
payload) is the function `Fcall : F → α` producing the action the
dispatcher will perform; `sizeof(F)` is the explicit argument `szF`.
-/

/-- `EventQueue::call(F f)` (src/EventQueue.h lines 173-188): allocate,
placement-construct `f` into the payload, install the destructor, post.
Returns id 0 when `equeue_alloc` fails. -/
def call (q : Equeue α) (szF : Nat) (f : F) (Fcall : F → α) : Equeue α × Nat :=
  match equeue_alloc q szF with
  | none => (q, 0)
  | some (q1, off, cls) =>
    let e : PreEvent α := { off := off, cls := cls, payload := Fcall f }
    let e := equeue_event_dtor e
    equeue_post q1 e

/-- `EventQueue::call_in(int ms, F f)` (src/EventQueue.h lines 437-453):
allocate, placement-construct, set the delay, install the destructor,
post. -/
def call_in (q : Equeue α) (szF : Nat) (ms : Nat) (f : F) (Fcall : F → α) :
    Equeue α × Nat :=
  match equeue_alloc q szF with
  | none => (q, 0)
  | some (q1, off, cls) =>
    let e : PreEvent α := { off := off, cls := cls, payload := Fcall f }
    let e := equeue_event_delay e ms
    let e := equeue_event_dtor e
    equeue_post q1 e

/-- `EventQueue::call_every(int ms, F f)` (src/EventQueue.h lines 702-719):
allocate, placement-construct, set the delay and the period, install the
destructor, post. -/
def call_every (q : Equeue α) (szF : Nat) (ms : Nat) (f : F) (Fcall : F → α) :
    Equeue α × Nat :=
  match equeue_alloc q szF with
  | none => (q, 0)
  | some (q1, off, cls) =>
    let e : PreEvent α := { off := off, cls := cls, payload := Fcall f }
    let e := equeue_event_delay e ms
    let e := equeue_event_period e ms
    let e := equeue_event_dtor e
    equeue_post q1 e

/-- `EventQueue::context10` (src/EventQueue.h lines 1158-1168): a callable
binding `f` and one argument; invoking it applies `f` to `a0`. -/
structure context10 (A0 β : Type) where
  f : A0 → β
  a0 : A0

/-- `context10::operator()`: `f(a0)`. -/
def context10.run (c : context10 A0 β) : β :=
  c.f c.a0

/-- `EventQueue::context20` (src/EventQueue.h lines 1170-1180). -/
structure context20 (A0 A1 β : Type) where
  f : A0 → A1 → β
  a0 : A0
  a1 : A1

/-- `context20::operator()`: `f(a0, a1)`. -/
def context20.run (c : context20 A0 A1 β) : β :=
  c.f c.a0 c.a1

/-- `EventQueue::context30` (src/EventQueue.h lines 1182-1192). -/
structure context30 (A0 A1 A2 β : Type) where
  f : A0 → A1 → A2 → β
  a0 : A0
  a1 : A1
  a2 : A2

/-- `context30::operator()`: `f(a0, a1, a2)`. -/
def context30.run (c : context30 A0 A1 A2 β) : β :=
  c.f c.a0 c.a1 c.a2

/-- `EventQueue::context40` (src/EventQueue.h lines 1194-1204). -/
structure context40 (A0 A1 A2 A3 β : Type) where
  f : A0 → A1 → A2 → A3 → β
  a0 : A0
  a1 : A1
  a2 : A2
  a3 : A3

/-- `context40::operator()`: `f(a0, a1, a2, a3)`. -/
def context40.run (c : context40 A0 A1 A2 A3 β) : β :=
  c.f c.a0 c.a1 c.a2 c.a3

/-- `EventQueue::context50` (src/EventQueue.h lines 1206-1216). -/
structure context50 (A0 A1 A2 A3 A4 β : Type) where
  f : A0 → A1 → A2 → A3 → A4 → β
  a0 : A0
  a1 : A1
  a2 : A2
  a3 : A3
  a4 : A4

/-- `context50::operator()`: `f(a0, a1, a2, a3, a4)`. -/
def context50.run (c : context50 A0 A1 A2 A3 A4 β) : β :=
  c.f c.a0 c.a1 c.a2 c.a3 c.a4

/-- `EventQueue::call(F f, A0 a0)` (src/EventQueue.h lines 193-196):
delegates to the nullary `call` on the bound closure `context10(f, a0)`;
`sz` is `sizeof(context10<F, A0>)`. -/
def call1 (q : Equeue β) (sz : Nat) (f : A0 → β) (a0 : A0) : Equeue β × Nat :=
  call q sz (context10.mk f a0) context10.run

/-- `EventQueue::call(F f, A0 a0, A1 a1)` (src/EventQueue.h lines 201-204). -/
def call2 (q : Equeue β) (sz : Nat) (f : A0 → A1 → β) (a0 : A0) (a1 : A1) :
    Equeue β × Nat :=
  call q sz (context20.mk f a0 a1) context20.run

/-- `EventQueue::call(F f, A0 a0, A1 a1, A2 a2)` (src/EventQueue.h lines
209-212). -/
def call3 (q : Equeue β) (sz : Nat) (f : A0 → A1 → A2 → β)
    (a0 : A0) (a1 : A1) (a2 : A2) : Equeue β × Nat :=
  call q sz (context30.mk f a0 a1 a2) context30.run

/-- `EventQueue::call(F f, A0 a0, A1 a1, A2 a2, A3 a3)` (src/EventQueue.h
lines 217-220). -/
def call4 (q : Equeue β) (sz : Nat) (f : A0 → A1 → A2 → A3 → β)
    (a0 : A0) (a1 : A1) (a2 : A2) (a3 : A3) : Equeue β × Nat :=
  call q sz (context40.mk f a0 a1 a2 a3) context40.run

/-- `EventQueue::call(F f, A0 a0, ..., A4 a4)` (src/EventQueue.h lines
225-228). -/
def call5 (q : Equeue β) (sz : Nat) (f : A0 → A1 → A2 → A3 → A4 → β)
    (a0 : A0) (a1 : A1) (a2 : A2) (a3 : A3) (a4 : A4) : Equeue β × Nat :=
  call q sz (context50.mk f a0 a1 a2 a3 a4) context50.run

end EventQueue

/-- Where an EventQueue's storage lives: allocated from the host, or built
in place inside a caller-supplied buffer (identified by its address). -/
inductive Storage
  | host (bytes : Nat)
  | inplace (buffer : Nat)
  deriving DecidableEq, Repr

/-- The observable outcome of queue construction: which storage was chosen
and the event count and (clamped) event size handed to the core. -/
structure EqueueInit where
  storage : Storage
  eventCount : Nat
  eventSize : Nat
  deriving DecidableEq, Repr

/-- Modelled from the spec: `equeue_create` (§6 Construction, null-buffer
case): allocate the backing storage from the host. -/
def equeue_create (count size : Nat) : EqueueInit :=
  { storage := Storage.host (count * size), eventCount := count, eventSize := size }

/-- Modelled from the spec: `equeue_create_inplace` (§6 Construction,
caller-buffer case): build the queue inside the caller-supplied buffer. -/
def equeue_create_inplace (count size buf : Nat) : EqueueInit :=
  { storage := Storage.inplace buf, eventCount := count, eventSize := size }

namespace EventQueue

/-- `EventQueue::EventQueue` (src/EventQueue.cpp lines 6-17): clamp the
event size up to `sizeof(Callback<void()>)` (the parameter
`sizeofCallback`), then create the queue from the host when
`event_pointer` is null and in place inside the buffer otherwise. -/
def init (sizeofCallback event_count event_size : Nat)
    (event_pointer : Option Nat) : EqueueInit :=
  let event_size := if event_size < sizeofCallback then sizeofCallback else event_size
  match event_pointer with
  | none => equeue_create event_count event_size
  | some b => equeue_create_inplace event_count event_size b

end EventQueue

/-- The `GlobalTicker` state (src/events-c/events_tick.cpp lines 6-27):
`tick` is the software counter `_tick` (a 32-bit unsigned), `timerMs` the
hardware timer's milliseconds since its last reset.  The constructor
starts both at 0. -/
structure GlobalTicker where
  tick : Nat
  timerMs : Nat
  deriving DecidableEq, Repr

namespace GlobalTicker

/-- `GlobalTicker::GlobalTicker`: `_tick = 0`, timer freshly started. -/
def init : GlobalTicker :=
  { tick := 0, timerMs := 0 }

/-- `GlobalTicker::step` (fired by the ticker every `(1 << 16) * 1000` us,
i.e. every `2 ^ 16` ms): reset the timer and advance `_tick` by `1 << 16`
in 32-bit unsigned arithmetic. -/
def step (g : GlobalTicker) : GlobalTicker :=
  { tick := (g.tick + 2 ^ 16) % 2 ^ 32, timerMs := 0 }

/-- `GlobalTicker::tick()`: `_tick + _timer.read_ms()` as a 32-bit
unsigned value. -/
def read (g : GlobalTicker) : Nat :=
  (g.tick + g.timerMs) % 2 ^ 32

/-- One millisecond of real time: the hardware timer advances, and when it
reaches `2 ^ 16` ms the attached ticker fires `step`. -/
def msElapse (g : GlobalTicker) : GlobalTicker :=
  if g.timerMs + 1 = 2 ^ 16 then g.step else { g with timerMs := g.timerMs + 1 }

end GlobalTicker

/-- The ticker state after `h` milliseconds of real time since start-up. -/
def tickerAt : Nat → GlobalTicker
  | 0 => GlobalTicker.init
  | h + 1 => (tickerAt h).msElapse

/-- `events_tick()` (src/events-c/events_tick.cpp lines 30-32), read `h`
milliseconds after start-up; `EventQueue::get_tick`
(src/EventQueue.cpp lines 27-29) returns exactly this value. -/
def events_tick (h : Nat) : Nat :=
  (tickerAt h).read

/-- Modelled from the platform's documented contract: the RTOS semaphore
timed wait that `events_sema_wait` delegates to (`rtos::Semaphore::wait`
is platform code outside this repository; spec §6 "Semaphore primitive"
describes the required behaviour).  `releaseAfter` is the environment:
after how many ms a release arrives (`none` = never); `timeout` is the
wait bound (`none` = the `osWaitForever` encoding).  The result is `none`
when the call never returns (forever wait with no release), otherwise the
token count (positive exactly when the wait ended by a release) paired
with the ms spent waiting. -/
def rtosSemaWait (releaseAfter : Option Nat) (timeout : Option Nat) :
    Option (Int × Nat) :=
  match releaseAfter, timeout with
  | some r, some t => if r ≤ t then some (1, r) else some (0, t)
  | some r, none => some (1, r)
  | none, some t => some (0, t)
  | none, none => none

/-- `events_sema_wait` (src/events-c/events_sema.cpp lines 24-27):
`int t = sema(s)->wait(ms < 0 ? osWaitForever : ms); return t > 0;`.
The result carries the boolean the C function returns and the ms spent
waiting; `none` when the underlying wait never returns. -/
def events_sema_wait (releaseAfter : Option Nat) (ms : Int) :
    Option (Bool × Nat) :=
  (rtosSemaWait releaseAfter (if ms < 0 then none else some ms.toNat)).map
    (fun p => (decide (p.1 > 0), p.2))

/-- The bare-metal `events_sema_wait` (src/events-c/sys/events_sema.cpp
lines 39-46, the branch compiled without `MBED_CONF_RTOS_PRESENT`): it
attaches a wakeup `Timeout` at `ms*1000` us, executes a single `__WFI()`
— which returns on any interrupt, the timeout wake included — and then
executes `return true;` unconditionally.  `wokeByRelease` is the
environment: whether the interrupt that ended the wait was a release
(in this build `events_sema_release` is in fact a no-op); the result
ignores it, exactly as the source does. -/
def events_sema_wait_baremetal (_wokeByRelease : Bool) (_ms : Int) : Bool :=
  true

/-- `osOK` status code of the RTOS. -/
def osOK : Int := 0

/-- The EventLoop state (src/EventLoop.h lines 57-69): the `_running`
flag, plus the number of live dispatcher threads running the loop's queue
(0 or 1 in any reachable state; the model counts them to state that). -/
structure EventLoop where
  running : Bool
  live : Nat
  deriving DecidableEq, Repr

namespace EventLoop

/-- `EventLoop::EventLoop` (src/EventLoop.cpp lines 8-18): `_running`
starts false; no dispatcher thread exists yet. -/
def init : EventLoop :=
  { running := false, live := 0 }

/-- `EventLoop::start` (src/EventLoop.cpp lines 29-37): an already-running
loop returns `osOK` untouched; otherwise `_thread.start` runs (its status
is the environment parameter `startStatus`, and a dispatcher thread comes
alive exactly when it is `osOK`) and `_running = (status == osOK)`. -/
def start (l : EventLoop) (startStatus : Int) : EventLoop × Int :=
  if l.running then (l, osOK)
  else
    ({ running := decide (startStatus = osOK),
       live := l.live + if startStatus = osOK then 1 else 0 }, startStatus)

/-- `EventLoop::stop` (src/EventLoop.cpp lines 50-70): a non-running loop
returns `osOK` untouched; otherwise the dispatcher thread is halted and
terminated (`termStatus` is the status of the final `_thread.terminate`)
and `_running` becomes false. -/
def stop (l : EventLoop) (termStatus : Int) : EventLoop × Int :=
  if !l.running then (l, osOK)
  else ({ running := false, live := l.live - 1 }, termStatus)

/-- A lifecycle operation on the loop, with the status the RTOS returns
for the underlying thread operation. -/
inductive Op
  | start (status : Int)
  | stop (status : Int)

/-- Run a sequence of lifecycle operations from a given state. -/
def runOps (l : EventLoop) : List Op → EventLoop
  | [] => l
  | Op.start st :: ops => runOps (l.start st).1 ops
  | Op.stop st :: ops => runOps (l.stop st).1 ops

end EventLoop

/-- Well-formed generation map: every tracked slot generation is at least
1 (generation 0 is skipped so that id 0 stays reserved, spec §4.2). -/
def gensWF (q : Equeue α) : Prop :=
  ∀ p ∈ q.gens, 1 ≤ p.2

/-- A small concrete arena for concrete evaluations: 1024 bytes, classes
`2^5 .. 2^10`, 8-byte headers, nothing carved yet. -/
def wSlab : Slab :=
  { headerSize := 8, minClass := 5, maxClass := 10, arenaSize := 1024,
    bump := 0, freelists := [[], [], [], [], [], []] }

/-- A fresh queue over `wSlab` whose actions are natural numbers. -/
def wQueue : Equeue Nat :=
  { slab := wSlab, gens := [], pending := [], dispatching := [],
    breakFlag := false, now := 0, indexBits := 10, genBits := 4 }

/-- `wQueue` after allocating one 8-byte payload: a 32-byte chunk is
carved at offset 0 with generation 1. -/
def wQueue1 : Equeue Nat :=
  { wQueue with slab := { wSlab with bump := 32 }, gens := [(0, 1)] }

/-- A queue with one pending event in slot 0 at generation 1, for concrete
cancel evaluations; the event's id is `1 * 2 ^ 4 + 0 = 16`. -/
def wQueue3 : Equeue Nat :=
  { slab := wSlab, gens := [(0, 1)],
    pending := [{ off := 0, cls := 5, gen := 1, deadline := 10,
                  period := none, run := 42, hasDtor := true }],
    dispatching := [], breakFlag := false, now := 0,
    indexBits := 4, genBits := 4 }

/-! ## Helper lemmas -/

/-- Closed form of the ticker state: after `h` ms the software counter
holds the last multiple of `2 ^ 16` (mod `2 ^ 32`) and the hardware timer
the remainder. -/
theorem tickerAt_closed (h : Nat) :
    tickerAt h
      = { tick := h / 2 ^ 16 * 2 ^ 16 % 2 ^ 32, timerMs := h % 2 ^ 16 } := by
  induction h with
  | zero => decide
  | succ h ih =>
    rw [tickerAt, ih, GlobalTicker.msElapse]
    by_cases hc : h % 2 ^ 16 + 1 = 2 ^ 16
    · simp only [hc, if_pos, GlobalTicker.step, GlobalTicker.mk.injEq]
      refine ⟨?_, ?_⟩ <;> omega
    · simp only [hc, if_neg, not_false_iff, GlobalTicker.mk.injEq]
      refine ⟨?_, ?_⟩ <;> omega

/-- The tick read `h` ms after start-up is `h` reduced mod `2 ^ 32`. -/
theorem events_tick_eq (h : Nat) : events_tick h = h % 2 ^ 32 := by
  rw [events_tick, tickerAt_closed, GlobalTicker.read]
  simp only
  omega

/-- A successful lookup in the generation map comes from an entry. -/
theorem lookupGen_mem {k v : Nat} :
    ∀ {l : List (Nat × Nat)}, lookupGen k l = some v → (k, v) ∈ l := by
  intro l
  induction l with
  | nil => intro h; exact absurd h (by simp [lookupGen])
  | cons p ps ih =>
    intro h
    rw [lookupGen] at h
    by_cases hk : p.1 = k
    · rw [if_pos hk] at h
      have hv : p.2 = v := by injection h
      have hp : (k, v) = p := by
        rw [← hk, ← hv]
      rw [hp]
      exact List.mem_cons_self p ps
    · rw [if_neg hk] at h
      right
      exact ih h

/-- After a successful `equeue_alloc` the allocated slot has a positive
generation on record (a fresh slot starts at generation 1; a recycled one
keeps its bumped, nonzero generation). -/
theorem alloc_gen_pos {q q1 : Equeue α} {sz off cls : Nat} (hwf : gensWF q)
    (h : equeue_alloc q sz = some (q1, off, cls)) :
    1 ≤ (lookupGen off q1.gens).getD 1 := by
  rw [equeue_alloc] at h
  cases halloc : q.slab.alloc sz with
  | none => rw [halloc] at h; exact absurd h (by simp)
  | some r =>
    obtain ⟨s, o, c⟩ := r
    rw [halloc] at h
    simp only [Option.some.injEq, Prod.mk.injEq] at h
    obtain ⟨hq1, hoff, hcls⟩ := h
    subst hq1 hoff
    cases hlk : lookupGen o q.gens with
    | none => simp [hlk, lookupGen]
    | some g =>
      have hg : 1 ≤ g := hwf (o, g) (lookupGen_mem hlk)
      simp [hlk]
      omega

/-- The id returned by `equeue_post` is nonzero whenever the slot's
recorded generation is positive. -/
theorem post_id_ne_zero {q : Equeue α} {p : PreEvent α}
    (hg : 1 ≤ (lookupGen p.off q.gens).getD 1) :
    (equeue_post q p).2 ≠ 0 := by
  rw [equeue_post]
  simp only [Equeue.encodeId]
  have hpow : 0 < 2 ^ q.indexBits := Nat.pos_pow_of_pos _ (by omega)
  have hmul : 0 < (lookupGen p.off q.gens).getD 1 * 2 ^ q.indexBits :=
    Nat.mul_pos (by omega) hpow
  omega

/-- The generation bump always changes the generation, as long as the
generation field is at least 2 bits wide and the old value is in range. -/
theorem genInc_ne {gb g : Nat} (hgb : 2 ≤ gb) (_hg1 : 1 ≤ g)
    (hg2 : g < 2 ^ gb) : Equeue.genInc gb g ≠ g := by
  rw [Equeue.genInc]
  have h4 : (4 : Nat) ≤ 2 ^ gb := by
    calc (4 : Nat) = 2 ^ 2 := by norm_num
    _ ≤ 2 ^ gb := Nat.pow_le_pow_right (by norm_num) hgb
  split <;> omega

/-- Finishing an event never touches the break flag. -/
theorem finishEvent_breakFlag (q : Equeue α) (e : EEvent α) :
    (finishEvent q e).breakFlag = q.breakFlag := by
  rw [finishEvent]
  cases e.period with
  | none => rfl
  | some p =>
    by_cases h : lookupGen e.off q.gens = some e.gen <;> simp [h]

/-- Finishing an event never touches the queue's tick. -/
theorem finishEvent_now (q : Equeue α) (e : EEvent α) :
    (finishEvent q e).now = q.now := by
  rw [finishEvent]
  cases e.period with
  | none => rfl
  | some p =>
    by_cases h : lookupGen e.off q.gens = some e.gen <;> simp [h]

/-- Finishing a batch of events never touches the break flag. -/
theorem foldl_finishEvent_breakFlag (l : List (EEvent α)) (q : Equeue α) :
    (l.foldl finishEvent q).breakFlag = q.breakFlag := by
  induction l generalizing q with
  | nil => rfl
  | cons e l ih => rw [List.foldl_cons, ih, finishEvent_breakFlag]

/-- Finishing a batch of events never touches the queue's tick. -/
theorem foldl_finishEvent_now (l : List (EEvent α)) (q : Equeue α) :
    (l.foldl finishEvent q).now = q.now := by
  induction l generalizing q with
  | nil => rfl
  | cons e l ih => rw [List.foldl_cons, ih, finishEvent_now]

/-- The trace of one dispatch pass is the run of every ready event, in
pending order. -/
theorem dispatchBatch_fst (q : Equeue α) :
    (dispatchBatch q).1
      = (q.pending.takeWhile (readyAt q.now)).map (fun e => e.run) := rfl

/-- One dispatch pass preserves the break flag. -/
theorem dispatchBatch_breakFlag (q : Equeue α) :
    (dispatchBatch q).2.breakFlag = q.breakFlag := by
  rw [dispatchBatch]
  simp only
  rw [foldl_finishEvent_breakFlag]

/-- One dispatch pass preserves the queue's tick. -/
theorem dispatchBatch_now (q : Equeue α) :
    (dispatchBatch q).2.now = q.now := by
  rw [dispatchBatch]
  simp only
  rw [foldl_finishEvent_now]

/-- On a pending list sorted by deadline, the ready prefix the dispatcher
splices off is every ready event. -/
theorem takeWhile_ready_eq_filter (now : Nat) (l : List (EEvent α))
    (hs : l.Pairwise (fun a b => a.deadline ≤ b.deadline)) :
    l.takeWhile (readyAt now) = l.filter (readyAt now) := by
  induction l with
  | nil => rfl
  | cons x xs ih =>
    rw [List.pairwise_cons] at hs
    by_cases hx : x.deadline ≤ now
    · have hxb : readyAt now x = true := by simp [readyAt, hx]
      rw [List.takeWhile_cons_of_pos hxb, List.filter_cons_of_pos hxb, ih hs.2]
    · have hxb : ¬ readyAt now x = true := by simp [readyAt, hx]
      rw [List.takeWhile_cons_of_neg hxb, List.filter_cons_of_neg hxb]
      symm
      rw [List.filter_eq_nil_iff]
      intro a ha
      have hxa := hs.1 a ha
      simp [readyAt]
      omega

/-- A dispatch pass whose deadline is already at or behind the queue's
tick executes the ready batch and returns in that very iteration: the
trace is the batch's trace, a final state exists, and the fuel beyond the
first iteration is irrelevant. -/
theorem dispatchLoop_at_deadline (clk : Nat → Nat) (T : Nat) (fuel i : Nat)
    (q : Equeue α) (hT : T ≤ q.now) :
    dispatchLoop clk (some T) (fuel + 1) i q
      = dispatchLoop clk (some T) 1 i q
    ∧ (dispatchLoop clk (some T) (fuel + 1) i q).1 = (dispatchBatch q).1
    ∧ ((dispatchLoop clk (some T) (fuel + 1) i q).2).isSome = true := by
  have hnow := dispatchBatch_now q
  by_cases hbr : (dispatchBatch q).2.breakFlag
  · rw [dispatchLoop, dispatchLoop]
    simp only [hbr, if_pos]
    refine ⟨?_, ?_, ?_⟩ <;> trivial
  · rw [dispatchLoop, dispatchLoop]
    simp only [hbr, if_neg, Bool.false_eq_true, not_false_iff]
    cases hhd : (dispatchBatch q).2.pending.head? with
    | none =>
      have hle : T ≤ max (clk i) ((dispatchBatch q).2.now
          + (T - (dispatchBatch q).2.now)) := by
        rw [hnow]
        omega
      simp only [hhd, hle, if_pos]
      refine ⟨?_, ?_, ?_⟩ <;> trivial
    | some e =>
      have hle : T ≤ max (clk i) ((dispatchBatch q).2.now
          + min (e.deadline - (dispatchBatch q).2.now)
              (T - (dispatchBatch q).2.now)) := by
        rw [hnow]
        omega
      simp only [hhd, hle, if_pos]
      refine ⟨?_, ?_, ?_⟩ <;> trivial

/-- With a finite deadline and a clock that reaches the deadline by read
`n`, the dispatch loop returns within `n + 1` iterations (no break), and
the final tick is at or past the deadline. -/
theorem dispatchLoop_terminates (clk : Nat → Nat) (T n : Nat)
    (hclk : ∀ j, n ≤ j → T ≤ clk j) :
    ∀ (k i : Nat) (q : Equeue α), q.breakFlag = false → n ≤ i + k →
      ∃ q', (dispatchLoop clk (some T) (k + 1) i q).2 = some q'
        ∧ T ≤ q'.now := by
  intro k
  induction k with
  | zero =>
    intro i q hbf hni
    have hbr : (dispatchBatch q).2.breakFlag = false := by
      rw [dispatchBatch_breakFlag, hbf]
    rw [dispatchLoop]
    simp only [hbr, Bool.false_eq_true, if_neg, not_false_iff]
    have hi : T ≤ clk i := hclk i (by omega)
    cases hhd : (dispatchBatch q).2.pending.head? with
    | none =>
      have hle : T ≤ max (clk i) ((dispatchBatch q).2.now
          + (T - (dispatchBatch q).2.now)) := le_max_of_le_left hi
      simp only [hhd, hle, if_pos]
      exact ⟨_, rfl, hle⟩
    | some e =>
      have hle : T ≤ max (clk i) ((dispatchBatch q).2.now
          + min (e.deadline - (dispatchBatch q).2.now)
              (T - (dispatchBatch q).2.now)) := le_max_of_le_left hi
      simp only [hhd, hle, if_pos]
      exact ⟨_, rfl, hle⟩
  | succ k ih =>
    intro i q hbf hni
    have hbr : (dispatchBatch q).2.breakFlag = false := by
      rw [dispatchBatch_breakFlag, hbf]
    rw [dispatchLoop]
    simp only [hbr, Bool.false_eq_true, if_neg, not_false_iff]
    cases hhd : (dispatchBatch q).2.pending.head? with
    | none =>
      by_cases hle : T ≤ max (clk i) ((dispatchBatch q).2.now
          + (T - (dispatchBatch q).2.now))
      · simp only [hhd, hle, if_pos]
        exact ⟨_, rfl, hle⟩
      · simp only [hhd, hle, if_neg, not_false_iff]
        obtain ⟨q', hq', hT'⟩ := ih (i + 1)
          { (dispatchBatch q).2 with
            breakFlag := false
            now := max (clk i) ((dispatchBatch q).2.now
              + (T - (dispatchBatch q).2.now)) }
          rfl (by omega)
        refine ⟨q', ?_, hT'⟩
        simpa using hq'
    | some e =>
      by_cases hle : T ≤ max (clk i) ((dispatchBatch q).2.now
          + min (e.deadline - (dispatchBatch q).2.now)
              (T - (dispatchBatch q).2.now))
      · simp only [hhd, hle, if_pos]
        exact ⟨_, rfl, hle⟩
      · simp only [hhd, hle, if_neg, not_false_iff]
        obtain ⟨q', hq', hT'⟩ := ih (i + 1)
          { (dispatchBatch q).2 with
            breakFlag := false
            now := max (clk i) ((dispatchBatch q).2.now
              + min (e.deadline - (dispatchBatch q).2.now)
                  (T - (dispatchBatch q).2.now)) }
          rfl (by omega)
        refine ⟨q', ?_, hT'⟩
        simpa using hq'

/-- With no deadline and the break flag clear, the dispatch loop never
returns: dispatching with a negative `ms` runs until break. -/
theorem dispatchLoop_forever (clk : Nat → Nat) :
    ∀ (fuel i : Nat) (q : Equeue α), q.breakFlag = false →
      (dispatchLoop clk none fuel i q).2 = none := by
  intro fuel
  induction fuel with
  | zero => intro i q hbf; rfl
  | succ fuel ih =>
    intro i q hbf
    have hbr : (dispatchBatch q).2.breakFlag = false := by
      rw [dispatchBatch_breakFlag, hbf]
    cases hhd : (dispatchBatch q).2.pending.head? with
    | none => simp [dispatchLoop, hbr, hhd]
    | some e =>
      simp only [dispatchLoop, hbr, hhd, Bool.false_eq_true, if_neg,
        not_false_iff]
      exact ih (i + 1) _ rfl

/-- With the break flag set, the first dispatch pass returns (clearing the
flag), whatever the deadline. -/
theorem dispatchLoop_break (clk : Nat → Nat) (timeout : Option Nat)
    (fuel i : Nat) (q : Equeue α) (hbf : q.breakFlag = true) :
    dispatchLoop clk timeout (fuel + 1) i q
      = ((dispatchBatch q).1,
         some { (dispatchBatch q).2 with breakFlag := false }) := by
  have hbr : (dispatchBatch q).2.breakFlag = true := by
    rw [dispatchBatch_breakFlag, hbf]
  cases timeout with
  | none =>
    cases hhd : (dispatchBatch q).2.pending.head? with
    | none => simp [dispatchLoop, hbr, hhd]
    | some e => simp [dispatchLoop, hbr, hhd]
  | some T => simp [dispatchLoop, hbr]

/-! ## Claims -/

/-- C6: the millisecond clock `events_tick` (the queue's tick) equals the
software counter (advanced by `2 ^ 16` every `2 ^ 16` ms) plus the
hardware timer's elapsed ms since the last advance, all modulo `2 ^ 32`;
so after `h` real ms it reads `h mod 2 ^ 32`, consecutive reads are
non-decreasing modulo wrap (each read is the previous plus one, mod
`2 ^ 32`), the read at `2 ^ 32 - 1` is `2 ^ 32 - 1`, and the value wraps
to 0 one millisecond later. -/
theorem C6_events_tick_wrapping_clock (h : Nat) :
    events_tick h = ((tickerAt h).tick + (tickerAt h).timerMs) % 2 ^ 32
    ∧ events_tick h = h % 2 ^ 32
    ∧ events_tick (h + 1) = (events_tick h + 1) % 2 ^ 32
    ∧ events_tick (2 ^ 32 - 1) = 2 ^ 32 - 1
    ∧ events_tick (2 ^ 32) = 0 := by
  refine ⟨rfl, events_tick_eq h, ?_, ?_, ?_⟩
  · rw [events_tick_eq, events_tick_eq]
    omega
  · rw [events_tick_eq]
    omega
  · rw [events_tick_eq]
    omega

/-- C5: construction chooses storage by the buffer argument alone: the
constructor with a null `event_pointer` yields host-allocated storage via
`equeue_create`, with a non-null pointer it builds the queue in place in
that buffer via `equeue_create_inplace`, and host storage is chosen
exactly when the pointer is null (there is no other construction path). -/
theorem C5_construction_storage (c count size b : Nat) :
    (EventQueue.init c count size none).storage
        = (equeue_create count (if size < c then c else size)).storage
    ∧ (EventQueue.init c count size (some b)).storage = Storage.inplace b
    ∧ ∀ buf : Option Nat,
        ((∃ n, (EventQueue.init c count size buf).storage = Storage.host n)
          ↔ buf = none) := by
  refine ⟨rfl, rfl, ?_⟩
  intro buf
  cases buf with
  | none =>
    simp only [EventQueue.init, equeue_create, iff_true]
    exact ⟨count * (if size < c then c else size), rfl⟩
  | some b' =>
    simp [EventQueue.init, equeue_create_inplace]

/-- C10: for every requested event size the constructor passes an event
size of at least `sizeof(Callback<void()>)` (the parameter `c`) to the
underlying queue creation: a smaller request is raised to that minimum
and a larger one passes through unchanged. -/
theorem C10_event_size_clamped (c count size : Nat) (buf : Option Nat) :
    c ≤ (EventQueue.init c count size buf).eventSize
    ∧ (EventQueue.init c count size buf).eventSize
        = (if size < c then c else size)
    ∧ (c ≤ size → (EventQueue.init c count size buf).eventSize = size) := by
  have hsz : (EventQueue.init c count size buf).eventSize
      = (if size < c then c else size) := by
    cases buf <;> rfl
  refine ⟨?_, hsz, ?_⟩
  · rw [hsz]
    split <;> omega
  · intro hle
    rw [hsz]
    split <;> omega

/-- Witness for C5 at concrete inputs: a caller-supplied buffer at address
5 is used in place, and the null-buffer construction is host-allocated. -/
theorem C5_construction_storage_witness :
    (EventQueue.init 16 32 0 (some 5)).storage = Storage.inplace 5
    ∧ ((∃ n, (EventQueue.init 16 32 0 none).storage = Storage.host n)
        ↔ (none : Option Nat) = none) :=
  ⟨(C5_construction_storage 16 32 0 5).2.1,
   (C5_construction_storage 16 32 0 5).2.2 none⟩

/-- Witness for C10 at concrete inputs: a 0-byte request is clamped up to
the 16-byte callback size, and a 100-byte request passes through. -/
theorem C10_event_size_clamped_witness :
    16 ≤ (EventQueue.init 16 32 0 none).eventSize
    ∧ (EventQueue.init 16 32 100 none).eventSize = 100 :=
  ⟨(C10_event_size_clamped 16 32 0 none).1,
   (C10_event_size_clamped 16 32 100 none).2.2 (by decide)⟩

/-- C8 (amended): for the RTOS implementation of `events_sema_wait`
(src/events-c/events_sema.cpp lines 24-27 and the RTOS branch of
sys/events_sema.cpp), for every release environment and every `ms`:
`ms < 0` waits indefinitely (it returns, with `true`, exactly when a
release arrives, and never by timeout); `ms == 0` returns immediately
(zero ms are spent waiting); and whenever it returns, the boolean is
`true` iff the wait ended because of a release rather than a timeout.
The bare-metal branch (sys/events_sema.cpp lines 39-46) instead performs
a single `__WFI` and returns `true` unconditionally, whatever woke it and
whatever `ms` was — there the true-iff-release property does not hold
(see the counterexample). -/
theorem C8_sema_wait (ra : Option Nat) (ms : Int) :
    (ms < 0 → events_sema_wait ra ms
        = (match ra with
           | some r => some (true, r)
           | none => none))
    ∧ (∃ b, events_sema_wait ra 0 = some (b, 0))
    ∧ (∀ b d, events_sema_wait ra ms = some (b, d) →
        (b = true ↔ ∃ r, ra = some r ∧ (ms < 0 ∨ r ≤ ms.toNat)))
    ∧ (∀ (woke : Bool) (ms2 : Int),
        events_sema_wait_baremetal woke ms2 = true) := by
  refine ⟨?_, ?_, ?_, fun _ _ => rfl⟩
  · intro hms
    cases ra with
    | none => simp [events_sema_wait, rtosSemaWait, hms]
    | some r => simp [events_sema_wait, rtosSemaWait, hms]
  · cases ra with
    | none => exact ⟨false, rfl⟩
    | some r =>
      by_cases hr : r ≤ 0
      · have h0 : r = 0 := Nat.le_zero.mp hr
        subst h0
        exact ⟨true, rfl⟩
      · refine ⟨false, ?_⟩
        simp [events_sema_wait, rtosSemaWait, hr]
  · intro b d hbd
    cases ra with
    | none =>
      by_cases hms : ms < 0
      · simp [events_sema_wait, rtosSemaWait, hms] at hbd
      · simp [events_sema_wait, rtosSemaWait, hms] at hbd
        simp [hbd.1]
    | some r =>
      by_cases hms : ms < 0
      · simp [events_sema_wait, rtosSemaWait, hms] at hbd
        simp [hbd.1]
        exact Or.inl hms
      · by_cases hr : r ≤ ms.toNat
        · simp [events_sema_wait, rtosSemaWait, hms, hr] at hbd
          simp [hbd.1]
          exact Or.inr hr
        · simp [events_sema_wait, rtosSemaWait, hms, hr] at hbd
          simp [hbd.1, hms, hr]

/-- Witness for C8 at concrete inputs: under RTOS, a forever wait with a
release after 3 ms returns `(true, 3)`, a zero wait returns after 0 ms,
and a 5 ms wait with no release ever returns `false`; on bare metal a
timeout-woken 7 ms wait still returns `true`. -/
theorem C8_sema_wait_witness :
    events_sema_wait (some 3) (-1) = some (true, 3)
    ∧ (∃ b, events_sema_wait none 0 = some (b, 0))
    ∧ (false = true ↔ ∃ r, (none : Option Nat) = some r
        ∧ ((5 : Int) < 0 ∨ r ≤ (5 : Int).toNat))
    ∧ events_sema_wait_baremetal false 7 = true :=
  ⟨(C8_sema_wait (some 3) (-1)).1 (by decide),
   (C8_sema_wait none 0).2.1,
   (C8_sema_wait none 5).2.2.1 false 5 (by decide),
   (C8_sema_wait none 5).2.2.2 false 7⟩

/-- Counterexample for C8 as stated: in the cited bare-metal build
(src/events-c/sys/events_sema.cpp lines 39-46) a 5 ms wait whose wake was
the timeout — not a release (release is a no-op in that build) — still
returns `true`, and a negative-`ms` wait returns after the first
interrupt instead of waiting for a release; so "returns true if and only
if the wait ended because of a release" is false of the cited code. -/
theorem C8_sema_wait_counterexample :
    events_sema_wait_baremetal false 5 = true
    ∧ ¬ (events_sema_wait_baremetal false 5 = true ↔ false = true)
    ∧ events_sema_wait_baremetal false (-1) = true :=
  ⟨rfl, by decide, rfl⟩

/-- The start/stop state machine of an `EventLoop` keeps the number of
live dispatcher threads equal to 1 when `_running` and 0 otherwise. -/
theorem runOps_live_inv (ops : List EventLoop.Op) (l : EventLoop)
    (h : l.live = if l.running then 1 else 0) :
    (EventLoop.runOps l ops).live
      = if (EventLoop.runOps l ops).running then 1 else 0 := by
  induction ops generalizing l with
  | nil => exact h
  | cons op ops ih =>
    cases op with
    | start st =>
      rw [EventLoop.runOps]
      apply ih
      rw [EventLoop.start]
      by_cases hr : l.running
      · simpa [hr] using h
      · by_cases hs : st = osOK <;> simp [hr, hs] at h ⊢ <;> omega
    | stop st =>
      rw [EventLoop.runOps]
      apply ih
      rw [EventLoop.stop]
      by_cases hr : l.running
      · simp [hr] at h ⊢
        omega
      · simpa [hr] using h

/-- C9: at most one dispatcher thread ever runs an `EventLoop`'s queue:
`start` on an already-running loop returns `osOK` and leaves the state
untouched; `stop` on a non-running loop returns `osOK` and leaves the
state untouched; after `start` on a non-running loop the `_running` flag
is true exactly when the thread start succeeded with `osOK`; `stop`
always leaves `_running` false; and along every operation sequence from
the initial state the number of live dispatcher threads is 1 when
`_running` and 0 otherwise — never more than one. -/
theorem C9_single_dispatcher :
    (∀ (l : EventLoop) (st : Int), l.running = true → l.start st = (l, osOK))
    ∧ (∀ (l : EventLoop) (st : Int), l.running = false → l.stop st = (l, osOK))
    ∧ (∀ (l : EventLoop) (st : Int), l.running = false →
        ((l.start st).1.running = true ↔ st = osOK))
    ∧ (∀ (l : EventLoop) (st : Int), (l.stop st).1.running = false)
    ∧ (∀ ops : List EventLoop.Op,
        (EventLoop.runOps EventLoop.init ops).live
          = (if (EventLoop.runOps EventLoop.init ops).running then 1 else 0)
        ∧ (EventLoop.runOps EventLoop.init ops).live ≤ 1) := by
  refine ⟨?_, ?_, ?_, ?_, ?_⟩
  · intro l st hr
    simp [EventLoop.start, hr]
  · intro l st hr
    simp [EventLoop.stop, hr]
  · intro l st hr
    by_cases hs : st = osOK <;> simp [EventLoop.start, hr, hs]
  · intro l st
    by_cases hr : l.running <;> simp [EventLoop.stop, hr]
  · intro ops
    have hinv := runOps_live_inv ops EventLoop.init (by rfl)
    refine ⟨hinv, ?_⟩
    rw [hinv]
    split <;> omega

/-- C1: for the whole post family (`call`, `call_in`, `call_every`, and —
through the `contextN0` reductions of C7 — every bound-argument overload),
a failing `equeue_alloc` makes the operation return id 0 with the queue
state untouched (nothing is posted), and a successful allocation makes it
return the posted slot's id, which is nonzero. -/
theorem C1_post_family_oom {F α : Type} (q : Equeue α) (szF : Nat)
    (f : F) (Fcall : F → α) (ms : Nat) (hwf : gensWF q) :
    (equeue_alloc q szF = none →
        EventQueue.call q szF f Fcall = (q, 0)
        ∧ EventQueue.call_in q szF ms f Fcall = (q, 0)
        ∧ EventQueue.call_every q szF ms f Fcall = (q, 0))
    ∧ ((equeue_alloc q szF).isSome →
        (EventQueue.call q szF f Fcall).2 ≠ 0
        ∧ (EventQueue.call_in q szF ms f Fcall).2 ≠ 0
        ∧ (EventQueue.call_every q szF ms f Fcall).2 ≠ 0) := by
  constructor
  · intro h
    refine ⟨?_, ?_, ?_⟩ <;>
      simp [EventQueue.call, EventQueue.call_in, EventQueue.call_every, h]
  · intro h
    rw [Option.isSome_iff_exists] at h
    obtain ⟨⟨q1, off, cls⟩, heq⟩ := h
    have hg : 1 ≤ (lookupGen off q1.gens).getD 1 := alloc_gen_pos hwf heq
    refine ⟨?_, ?_, ?_⟩ <;>
      simp only [EventQueue.call, EventQueue.call_in, EventQueue.call_every,
        heq, equeue_event_delay, equeue_event_period, equeue_event_dtor] <;>
      exact post_id_ne_zero hg

/-- Witness for C1 at concrete inputs: a 10000-byte payload exceeds every
size class of the 1024-byte arena, so `call` returns id 0 and leaves the
queue untouched; an 8-byte payload allocates and `call` returns a nonzero
id. -/
theorem C1_post_family_oom_witness :
    EventQueue.call wQueue 10000 7 (fun n : Nat => n) = (wQueue, 0)
    ∧ (EventQueue.call wQueue 8 7 (fun n : Nat => n)).2 ≠ 0 :=
  ⟨((C1_post_family_oom wQueue 10000 7 (fun n : Nat => n) 0
      (by intro p hp; simp [wQueue] at hp)).1 (by decide)).1,
   ((C1_post_family_oom wQueue 8 7 (fun n : Nat => n) 0
      (by intro p hp; simp [wQueue] at hp)).2 (by decide)).1⟩

/-- C4: on the core surface the builders perform exactly the specified
sequence.  Given the slot `equeue_alloc` hands out, `call` posts the
placement-constructed payload with the destructor installed and the header
otherwise untouched (delay 0, no period); `call_in ms` additionally sets
the delay to `ms`; `call_every ms` sets both the delay and the period to
`ms`. -/
theorem C4_builder_sequence {F α : Type} (q q1 : Equeue α)
    (szF off cls : Nat) (f : F) (Fcall : F → α) (ms : Nat)
    (h : equeue_alloc q szF = some (q1, off, cls)) :
    EventQueue.call q szF f Fcall
      = equeue_post q1
          { off := off, cls := cls, payload := Fcall f,
            delay := 0, period := none, hasDtor := true }
    ∧ EventQueue.call_in q szF ms f Fcall
      = equeue_post q1
          { off := off, cls := cls, payload := Fcall f,
            delay := ms, period := none, hasDtor := true }
    ∧ EventQueue.call_every q szF ms f Fcall
      = equeue_post q1
          { off := off, cls := cls, payload := Fcall f,
            delay := ms, period := some ms, hasDtor := true } := by
  refine ⟨?_, ?_, ?_⟩ <;>
    simp [EventQueue.call, EventQueue.call_in, EventQueue.call_every, h,
      equeue_event_delay, equeue_event_period, equeue_event_dtor]

/-- Witness for C4 at concrete inputs: allocating 8 bytes from the fresh
arena yields slot (0, class 5), and the three builders post exactly the
three expected headers. -/
theorem C4_builder_sequence_witness :
    EventQueue.call wQueue 8 7 (fun n : Nat => n)
      = equeue_post wQueue1
          { off := 0, cls := 5, payload := 7,
            delay := 0, period := none, hasDtor := true }
    ∧ EventQueue.call_every wQueue 8 100 7 (fun n : Nat => n)
      = equeue_post wQueue1
          { off := 0, cls := 5, payload := 7,
            delay := 100, period := some 100, hasDtor := true } :=
  ⟨(C4_builder_sequence wQueue wQueue1 8 0 5 7 (fun n : Nat => n) 100
      (by decide)).1,
   (C4_builder_sequence wQueue wQueue1 8 0 5 7 (fun n : Nat => n) 100
      (by decide)).2.2⟩

/-- C7: each argument-binding overload `call(f, a0, ..., aN)` equals the
zero-argument `call` applied to the bound closure `contextN0(f, a0, ...,
aN)` — same resulting queue state and id, hence the same dispatched
behaviour — and invoking that closure applies `f` to exactly its bound
arguments in order. -/
theorem C7_overloads_are_bound_closures {β A0 A1 A2 A3 A4 : Type}
    (q : Equeue β) (sz : Nat) :
    (∀ (f : A0 → β) (a0 : A0),
        EventQueue.call1 q sz f a0
          = EventQueue.call q sz (EventQueue.context10.mk f a0)
              EventQueue.context10.run
        ∧ (EventQueue.context10.mk f a0).run = f a0)
    ∧ (∀ (f : A0 → A1 → β) (a0 : A0) (a1 : A1),
        EventQueue.call2 q sz f a0 a1
          = EventQueue.call q sz (EventQueue.context20.mk f a0 a1)
              EventQueue.context20.run
        ∧ (EventQueue.context20.mk f a0 a1).run = f a0 a1)
    ∧ (∀ (f : A0 → A1 → A2 → β) (a0 : A0) (a1 : A1) (a2 : A2),
        EventQueue.call3 q sz f a0 a1 a2
          = EventQueue.call q sz (EventQueue.context30.mk f a0 a1 a2)
              EventQueue.context30.run
        ∧ (EventQueue.context30.mk f a0 a1 a2).run = f a0 a1 a2)
    ∧ (∀ (f : A0 → A1 → A2 → A3 → β) (a0 : A0) (a1 : A1) (a2 : A2) (a3 : A3),
        EventQueue.call4 q sz f a0 a1 a2 a3
          = EventQueue.call q sz (EventQueue.context40.mk f a0 a1 a2 a3)
              EventQueue.context40.run
        ∧ (EventQueue.context40.mk f a0 a1 a2 a3).run = f a0 a1 a2 a3)
    ∧ (∀ (f : A0 → A1 → A2 → A3 → A4 → β) (a0 : A0) (a1 : A1) (a2 : A2)
          (a3 : A3) (a4 : A4),
        EventQueue.call5 q sz f a0 a1 a2 a3 a4
          = EventQueue.call q sz (EventQueue.context50.mk f a0 a1 a2 a3 a4)
              EventQueue.context50.run
        ∧ (EventQueue.context50.mk f a0 a1 a2 a3 a4).run = f a0 a1 a2 a3 a4) :=
  ⟨fun _ _ => ⟨rfl, rfl⟩,
   fun _ _ _ => ⟨rfl, rfl⟩,
   fun _ _ _ _ => ⟨rfl, rfl⟩,
   fun _ _ _ _ _ => ⟨rfl, rfl⟩,
   fun _ _ _ _ _ _ => ⟨rfl, rfl⟩⟩

/-- C2: `dispatch(ms)` timeout semantics, over any monotone unbounded
platform clock.  With `ms == 0` the dispatcher executes exactly the events
already ready at the tick of the call (the ready prefix of the pending
list — all ready events when the pending list is sorted by deadline) and
returns within that single pass, extra fuel never changing the outcome;
with any finite `ms > 0` (and no pending break) it terminates, the final
tick at or past the caller's finish time `now + ms`; with `ms < 0` it
never returns unless broken, and a pending break ends it after one pass. -/
theorem C2_dispatch_timeout_semantics {α : Type} (clk : Nat → Nat)
    (q : Equeue α) :
    (∀ fuel : Nat,
      EventQueue.dispatch clk q 0 (fuel + 1) = EventQueue.dispatch clk q 0 1
      ∧ (EventQueue.dispatch clk q 0 (fuel + 1)).1
          = (q.pending.takeWhile (readyAt q.now)).map (fun e => e.run)
      ∧ ((EventQueue.dispatch clk q 0 (fuel + 1)).2).isSome = true
      ∧ (q.pending.Pairwise (fun a b => a.deadline ≤ b.deadline) →
          (EventQueue.dispatch clk q 0 (fuel + 1)).1
            = (q.pending.filter (readyAt q.now)).map (fun e => e.run)))
    ∧ (∀ ms : Int, 0 < ms → q.breakFlag = false →
        (∀ a b, a ≤ b → clk a ≤ clk b) → (∀ B, ∃ i, B ≤ clk i) →
        ∃ (fuel : Nat) (q' : Equeue α),
          (EventQueue.dispatch clk q ms fuel).2 = some q'
          ∧ q.now + ms.toNat ≤ q'.now)
    ∧ (∀ ms : Int, ms < 0 → q.breakFlag = false →
        ∀ fuel, (EventQueue.dispatch clk q ms fuel).2 = none)
    ∧ (∀ ms : Int, ∀ fuel, q.breakFlag = true →
        ((EventQueue.dispatch clk q ms (fuel + 1)).2).isSome = true) := by
  have ht0 : (if (0 : Int) < 0 then (none : Option Nat)
      else some (q.now + (0 : Int).toNat)) = some q.now := by
    norm_num
  refine ⟨?_, ?_, ?_, ?_⟩
  · intro fuel
    have hd := dispatchLoop_at_deadline clk q.now fuel 0 q (le_refl q.now)
    have hd0 := dispatchLoop_at_deadline clk q.now 0 0 q (le_refl q.now)
    refine ⟨?_, ?_, ?_, ?_⟩
    · simp only [EventQueue.dispatch, equeue_dispatch, ht0]
      exact hd.1
    · simp only [EventQueue.dispatch, equeue_dispatch, ht0]
      rw [hd.2.1, dispatchBatch_fst]
    · simp only [EventQueue.dispatch, equeue_dispatch, ht0]
      exact hd.2.2
    · intro hsort
      simp only [EventQueue.dispatch, equeue_dispatch, ht0]
      rw [hd.2.1, dispatchBatch_fst, takeWhile_ready_eq_filter q.now q.pending hsort]
  · intro ms hms hbf hmono hunb
    have htm : (if ms < 0 then (none : Option Nat)
        else some (q.now + ms.toNat)) = some (q.now + ms.toNat) := by
      rw [if_neg (by omega)]
    obtain ⟨n, hn⟩ := hunb (q.now + ms.toNat)
    have hclk : ∀ j, n ≤ j → q.now + ms.toNat ≤ clk j :=
      fun j hj => le_trans hn (hmono n j hj)
    obtain ⟨q', hq', hT'⟩ :=
      dispatchLoop_terminates clk (q.now + ms.toNat) n hclk n 0 q hbf (by omega)
    refine ⟨n + 1, q', ?_, hT'⟩
    simp only [EventQueue.dispatch, equeue_dispatch, htm]
    exact hq'
  · intro ms hms hbf fuel
    simp only [EventQueue.dispatch, equeue_dispatch, if_pos hms]
    exact dispatchLoop_forever clk fuel 0 q hbf
  · intro ms fuel hbf
    simp only [EventQueue.dispatch, equeue_dispatch]
    rw [dispatchLoop_break clk _ fuel 0 q hbf]
    rfl

/-- Witness for C2 at concrete inputs over the identity clock: the
zero-timeout dispatch of the one-event queue returns in one pass, a 5 ms
dispatch terminates at a tick past 5, and a forever dispatch is still
running at any fuel. -/
theorem C2_dispatch_timeout_semantics_witness :
    ((EventQueue.dispatch (fun i => i) wQueue3 0 (0 + 1)).2).isSome = true
    ∧ (∃ (fuel : Nat) (q' : Equeue Nat),
        (EventQueue.dispatch (fun i => i) wQueue3 5 fuel).2 = some q'
        ∧ wQueue3.now + (5 : Int).toNat ≤ q'.now)
    ∧ (EventQueue.dispatch (fun i => i) wQueue3 (-1) 3).2 = none :=
  ⟨((C2_dispatch_timeout_semantics (fun i => i) wQueue3).1 0).2.2.1,
   (C2_dispatch_timeout_semantics (fun i => i) wQueue3).2.1 5 (by decide)
     (by decide) (fun a b h => h) (fun B => ⟨B, le_refl B⟩),
   (C2_dispatch_timeout_semantics (fun i => i) wQueue3).2.2.1 (-1) (by decide)
     (by decide) 3⟩

/-- C3: cancel is idempotent and stale-safe.  For every id, cancelling a
second time after a cancel has taken effect changes nothing (the first
effective cancel bumps the slot generation, so the id no longer matches);
a cancel whose id's generation does not match the slot's recorded
generation — or whose slot is unknown, or whose id is 0 — leaves the
entire queue state unchanged.  `event_cancel` returns only the queue (no
error result) and is a pure state update (it never blocks). -/
theorem C3_cancel_idempotent_stale_safe {α : Type} (q : Equeue α) (id : Nat)
    (hgb : 2 ≤ q.genBits)
    (hwf : ∀ p ∈ q.gens, 1 ≤ p.2 ∧ p.2 < 2 ^ q.genBits) :
    event_cancel (event_cancel q id) id = event_cancel q id
    ∧ (∀ g, lookupGen (id % 2 ^ q.indexBits) q.gens = some g →
        g ≠ id / 2 ^ q.indexBits → event_cancel q id = q)
    ∧ (lookupGen (id % 2 ^ q.indexBits) q.gens = none → event_cancel q id = q)
    ∧ event_cancel q 0 = q := by
  have hzero : event_cancel q 0 = q := by simp [event_cancel]
  by_cases hid : id = 0
  · subst hid
    exact ⟨by rw [hzero, hzero], fun g _ hg => hzero, fun _ => hzero, hzero⟩
  have hstale : ∀ g, lookupGen (id % 2 ^ q.indexBits) q.gens = some g →
      g ≠ id / 2 ^ q.indexBits → event_cancel q id = q := by
    intro g hlk hne
    simp [event_cancel, hid, hlk, hne]
  have hnone : lookupGen (id % 2 ^ q.indexBits) q.gens = none →
      event_cancel q id = q := by
    intro hlk
    simp [event_cancel, hid, hlk]
  refine ⟨?_, hstale, hnone, hzero⟩
  cases hlk : lookupGen (id % 2 ^ q.indexBits) q.gens with
  | none =>
    have h1 := hnone hlk
    rw [h1]
    exact h1
  | some g =>
    by_cases hne : g ≠ id / 2 ^ q.indexBits
    · have h1 := hstale g hlk hne
      rw [h1]
      exact h1
    · push_neg at hne
      have hmem := lookupGen_mem hlk
      have hb := hwf _ hmem
      have hni : Equeue.genInc q.genBits g ≠ g := genInc_ne hgb hb.1 hb.2
      have hni' : Equeue.genInc q.genBits g ≠ id / 2 ^ q.indexBits := by
        rw [← hne]
        exact hni
      cases hfind : q.pending.find? (fun e => e.off == id % 2 ^ q.indexBits) with
      | some e =>
        have h1 : event_cancel q id
            = { q with
                pending := q.pending.eraseP
                    (fun e => e.off == id % 2 ^ q.indexBits),
                gens := (id % 2 ^ q.indexBits,
                    Equeue.genInc q.genBits g) :: q.gens,
                slab := q.slab.dealloc e.off e.cls } := by
          simp [event_cancel, hid, hlk, hne, hfind]
        rw [h1]
        simp [event_cancel, hid, lookupGen, hni']
      | none =>
        cases hdisp : q.dispatching.any (fun e => e.off == id % 2 ^ q.indexBits) with
        | true =>
          have h1 : event_cancel q id
              = { q with
                  gens := (id % 2 ^ q.indexBits,
                      Equeue.genInc q.genBits g) :: q.gens } := by
            simp [event_cancel, hid, hlk, hne, hfind, hdisp]
          rw [h1]
          simp [event_cancel, hid, lookupGen, hni']
        | false =>
          have h1 : event_cancel q id = q := by
            simp [event_cancel, hid, hlk, hne, hfind, hdisp]
          rw [h1]
          exact h1

/-- Witness for C3 at concrete inputs: cancelling id 16 in the one-event
queue twice equals cancelling it once, and cancelling id 0 is a no-op. -/
theorem C3_cancel_idempotent_stale_safe_witness :
    event_cancel (event_cancel wQueue3 16) 16 = event_cancel wQueue3 16
    ∧ event_cancel wQueue3 0 = wQueue3 :=
  ⟨(C3_cancel_idempotent_stale_safe wQueue3 16 (by decide) (by decide)).1,
   (C3_cancel_idempotent_stale_safe wQueue3 16 (by decide) (by decide)).2.2.2⟩

/-- Witness for C9 at concrete inputs: starting a running loop and
stopping a stopped loop are `osOK` no-ops, and a concrete trace keeps at
most one dispatcher alive. -/
theorem C9_single_dispatcher_witness :
    EventLoop.start { running := true, live := 1 } 7
        = ({ running := true, live := 1 }, osOK)
    ∧ EventLoop.stop { running := false, live := 0 } 7
        = ({ running := false, live := 0 }, osOK)
    ∧ (EventLoop.runOps EventLoop.init
        [EventLoop.Op.start 0, EventLoop.Op.stop 0, EventLoop.Op.start 3]).live ≤ 1 :=
  ⟨C9_single_dispatcher.1 { running := true, live := 1 } 7 rfl,
   C9_single_dispatcher.2.1 { running := false, live := 0 } 7 rfl,
   (C9_single_dispatcher.2.2.2.2
      [EventLoop.Op.start 0, EventLoop.Op.stop 0, EventLoop.Op.start 3]).2⟩

end MbedEvents
